import Mathlib

/-!
# Verification of `StockMarginDetail` (margin-trading detail cache)

Shallow embedding of `src/sz/stock_data/market/margin_detail.py`.

Modelling conventions:
* A table (`pd.DataFrame`) is a list of rows.  Each row has a trade date,
  an entity key (the security code) and one representative provider field.
* Dates are proleptic-Gregorian ordinals (Python `date.toordinal`), so
  `timedelta(days = 1)` is `+ 1`.
* The cache file is an `Option Table`: `none` means the file does not
  exist, `some t` means the file holds table `t`.
* External collaborators (tushare API client, trading calendar) are an
  explicit environment `Env`; a fetch either returns a table or raises,
  modelled by `Except String Table`.
-/

namespace MarginDetail

/-- One record of the margin-trading detail table: a trade date
(proleptic-Gregorian ordinal), the entity (security code) it belongs to,
and a representative numeric provider field. -/
structure Row where
  trade_date : Nat
  entity : Nat
  value : Int
deriving DecidableEq, Repr, Inhabited

/-- A `pd.DataFrame` of margin-detail records. -/
abbrev Table := List Row

/-- The class attribute `base_date = date(year = 2014, month = 9, day = 22)`, as a
proleptic-Gregorian ordinal (`date(2014, 9, 22).toordinal() = 735498`). -/
def base_date : Nat := 735498

/-- Ordering of rows by trade date, the key of
`sort_values(by = 'trade_date')`. -/
def rowLE (a b : Row) : Prop := a.trade_date ≤ b.trade_date

instance : DecidableRel rowLE := fun a b => Nat.decLe a.trade_date b.trade_date

instance : IsTotal Row rowLE := ⟨fun a b => Nat.le_total a.trade_date b.trade_date⟩

instance : IsTrans Row rowLE := ⟨fun _ _ _ h h' => Nat.le_trans h h'⟩

/-- Model of `df.sort_values(by = 'trade_date')`. -/
def sortByTradeDate (t : Table) : Table := List.insertionSort rowLE t

/-- Auxiliary for `dropDuplicates`: keep the first occurrence of each row,
`seen` being the rows already emitted. -/
def dropDupAux (seen : Table) : Table → Table
  | [] => []
  | r :: rest => if r ∈ seen then dropDupAux seen rest else r :: dropDupAux (r :: seen) rest

/-- Model of `df.drop_duplicates()`: remove rows that are identical (in every
column) to an earlier row, keeping first occurrences. -/
def dropDuplicates (t : Table) : Table := dropDupAux [] t

/-- Model of `df.shape`: the tuple `(number of rows, number of columns)`, modelled
as the list of its entries.  A `Row` has 3 columns. -/
def shape (t : Table) : List Nat := [t.length, 3]

/-- Python truthiness of a tuple: a tuple is truthy iff it is non-empty. -/
def tupleTruthy (l : List Nat) : Bool := !l.isEmpty

/-- The guard `not df.shape` of `update()` (line 115). -/
def notShapeGuard (t : Table) : Bool := !tupleTruthy (shape t)

/-- The maximum of the `trade_date` column, `none` on an empty table. -/
def maxTD (t : Table) : Option Nat :=
  t.foldr (fun r acc => match acc with
    | none => some r.trade_date
    | some m => some (max r.trade_date m)) none

/-- The dataset-manager object: `data_dir` and the in-memory
`self.dataframe` (`None` before `load`). -/
structure StockMarginDetail where
  data_dir : String
  dataframe : Option Table
deriving Repr

/-- POSIX `os.path.join` of two components: an absolute second component
replaces the first; otherwise a `/` separator is inserted unless the
first component is empty or already ends in `/`. -/
def osPathJoin (a b : String) : String :=
  if b.data.head? = some '/' then b
  else if a = "" ∨ a.data.getLast? = some '/' then a ++ b
  else a ++ "/" ++ b

/-- Model of `file_path()`, which returns `os.path.join(self.data_dir, 'market', 'margin_trading_detail.csv')`. -/
def file_path (s : StockMarginDetail) : String :=
  osPathJoin (osPathJoin s.data_dir "market") "margin_trading_detail.csv"

/-- Model of `load()`: if the cache file exists, read it with `trade_date` parsed
as dates and sort by `trade_date`; otherwise an empty table.  Returns the
table together with the object whose `self.dataframe` was set to it. -/
def load (s : StockMarginDetail) (fs : Option Table) : Table × StockMarginDetail :=
  match fs with
  | some content =>
      let t := sortByTradeDate content
      (t, { s with dataframe := some t })
  | none => ([], { s with dataframe := some [] })

/-- Model of `prepare()`: `load` only when `self.dataframe is None`. -/
def prepare (s : StockMarginDetail) (fs : Option Table) : StockMarginDetail :=
  match s.dataframe with
  | none => (load s fs).2
  | some _ => s

/-- Modelled from the spec: `need_update_by_trade_date(df, 'trade_date')`
(from `sz.stock_data.toolbox.helper`, not under `src/`) — true iff the
cached max trade date is older than the latest known trading day; an
empty cache always needs updating. -/
def need_update_by_trade_date (t : Table) (latest_trade_day : Nat) : Bool :=
  match maxTD t with
  | none => true
  | some m => decide (m < latest_trade_day)

/-- Model of `should_update()`: `True` when the cache file does not exist,
otherwise `need_update_by_trade_date` on the loaded table. -/
def should_update (s : StockMarginDetail) (fs : Option Table) (latest_trade_day : Nat) : Bool :=
  match fs with
  | none => true
  | some _ => need_update_by_trade_date ((prepare s fs).dataframe.getD []) latest_trade_day

/-- Model of `start_date()`: the fixed base date on an empty table, else the trade
date of the last row (`iloc[-1]`) plus one day. -/
def start_date (s : StockMarginDetail) (fs : Option Table) : Nat :=
  match ((prepare s fs).dataframe.getD []).getLast? with
  | none => base_date
  | some r => r.trade_date + 1

/-- Modelled from the spec: the external collaborators of `update()` —
the trading calendar (`latest_trade_day`, `trade_day_between`) and the
rate-limited remote API client (`ts_margin_detail`, which either returns
a day's slice or raises). -/
structure Env where
  latest_trade_day : Nat
  trade_day_between : Nat → Nat → List Nat
  fetch : Nat → Except String Table

/-- The `for trade_date in trad_date_list` loop of `update()`: fetch each
day's slice; append it to the accumulator when `not df.shape` holds; stop
at the first raised exception, which is reported alongside the
accumulator. -/
def fetchLoop (fetch : Nat → Except String Table) :
    List Nat → List Table → List Table × Option String
  | [], acc => (acc, none)
  | d :: rest, acc =>
      match fetch d with
      | .error e => (acc, some e)
      | .ok df =>
          fetchLoop fetch rest (if notShapeGuard df then acc ++ [df] else acc)

/-- The merge of `update()` (lines 125-127):
`pd.concat(df_list).drop_duplicates()` followed by
`sort_values(by = 'trade_date')`. -/
def mergeTables (df_list : List Table) : Table :=
  sortByTradeDate (dropDuplicates df_list.flatten)

/-- The `finally` block of `update()`: when more than one frame
accumulated, merge and write the result to the cache file; otherwise
leave the file as it is.  Afterwards re-raise a pending exception. -/
def updateFinally (s : StockMarginDetail) (fs : Option Table)
    (df_list : List Table) (err : Option String) :
    Except String Unit × StockMarginDetail × Option Table :=
  let result : Except String Unit := match err with
    | some e => .error e
    | none => .ok ()
  if df_list.length > 1 then
    let merged := mergeTables df_list
    (result, { s with dataframe := some merged }, some merged)
  else
    (result, s, fs)

/-- Model of `update()`: prepare, and when `should_update()` holds fetch one slice
per trading day in `[start_date(), latest_trade_day]`, then run the
`finally` block.  Returns the outcome (`.error` when a fetch raised),
the object and the cache-file state. -/
def update (env : Env) (s : StockMarginDetail) (fs : Option Table) :
    Except String Unit × StockMarginDetail × Option Table :=
  let s1 := prepare s fs
  if should_update s1 fs env.latest_trade_day then
    let df_list : List Table := [s1.dataframe.getD []]
    let trad_date_list :=
      env.trade_day_between (start_date s1 fs) env.latest_trade_day
    let step := fetchLoop env.fetch trad_date_list df_list
    updateFinally s1 fs step.1 step.2
  else
    (.ok (), s1, fs)

/-! ## General lemmas about the fetch loop and the file state -/

/-- The guard `not df.shape` is false on every frame: `df.shape` is the
two-element tuple `(rows, cols)`, which is always truthy in Python. -/
lemma notShapeGuard_eq_false (t : Table) : notShapeGuard t = false := rfl

/-- Because the guard is always false, the fetch loop never appends to
its accumulator. -/
lemma fetchLoop_fst (fetch : Nat → Except String Table) :
    ∀ (ds : List Nat) (acc : List Table), (fetchLoop fetch ds acc).1 = acc := by
  intro ds
  induction ds with
  | nil => intro acc; rfl
  | cons d rest ih =>
      intro acc
      unfold fetchLoop
      cases fetch d with
      | error e => rfl
      | ok df => simpa [notShapeGuard_eq_false] using ih acc

/-- Lemma: `update()` never changes the cache file: the accumulator stays at
length 1, so the write branch of the `finally` block is unreachable. -/
lemma update_fs_eq (env : Env) (s : StockMarginDetail) (fs : Option Table) :
    (update env s fs).2.2 = fs := by
  unfold update
  by_cases h : should_update (prepare s fs) fs env.latest_trade_day
  · simp only [h, if_true]
    unfold updateFinally
    simp [fetchLoop_fst]
  · simp [h]

/-- Likewise the fetch loop reports the first raised exception. -/
lemma update_result_eq (env : Env) (s : StockMarginDetail) (fs : Option Table)
    (h : should_update (prepare s fs) fs env.latest_trade_day = true) :
    (update env s fs).1 =
      (match (fetchLoop env.fetch
          (env.trade_day_between (start_date (prepare s fs) fs) env.latest_trade_day)
          [(prepare s fs).dataframe.getD []]).2 with
        | some e => Except.error e
        | none => Except.ok ()) := by
  unfold update
  simp only [h, if_true]
  unfold updateFinally
  simp [fetchLoop_fst]

/-! ## Claim C2 -/

/-- C2: the guard `not df.shape` on a fetched `DataFrame` is always
false, so no fetched slice is ever appended, the accumulation list keeps
length 1, and `update()` never writes to or modifies the cache file. -/
theorem c2_shape_guard_always_false :
    (∀ df : Table, notShapeGuard df = false) ∧
    (∀ (fetch : Nat → Except String Table) (ds : List Nat) (t : Table),
      (fetchLoop fetch ds [t]).1.length = 1) ∧
    (∀ (env : Env) (s : StockMarginDetail) (fs : Option Table),
      (update env s fs).2.2 = fs) :=
  ⟨notShapeGuard_eq_false,
   fun fetch ds t => by rw [fetchLoop_fst fetch ds [t]]; rfl,
   update_fs_eq⟩

/-! ## Claim C1 (code bug: the fetched slices are never accumulated) -/

/-- A cache holding a single record of trade day 100. -/
def cacheT1 : Table := [⟨100, 1, 5⟩]

/-- An environment whose calendar offers one new trading day, 101, and
whose fetch succeeds with a non-empty slice for it. -/
def env1 : Env :=
  { latest_trade_day := 101
  , trade_day_between := fun a b => if a ≤ b then [101] else []
  , fetch := fun d => .ok [⟨d, 1, 6⟩] }

/-- C1 (failing run): with a stale cache, `should_update()` is true and
the fetch of the one missing day succeeds with a non-empty slice, yet
`update()` completes without merging or writing anything: the cache file
still holds only the old record, against the claim that the fetched
slices are merged and written. -/
theorem c1_update_never_persists :
    should_update ⟨"data", none⟩ (some cacheT1) 101 = true ∧
    env1.fetch 101 = .ok [⟨101, 1, 6⟩] ∧
    (update env1 ⟨"data", none⟩ (some cacheT1)).1 = .ok () ∧
    (update env1 ⟨"data", none⟩ (some cacheT1)).2.2 = some cacheT1 :=
  ⟨rfl, rfl, rfl, rfl⟩

/-! ## Claim C3 (code bug: nothing is persisted before the re-raise) -/

/-- An environment with two missing trading days where the first fetch
succeeds with data and the second raises. -/
def env3 : Env :=
  { latest_trade_day := 201
  , trade_day_between := fun _ _ => [200, 201]
  , fetch := fun d => if d = 200 then .ok [⟨200, 1, 1⟩] else .error "neterr" }

/-- C3 (failing run): the fetch of day 200 succeeds with data, the fetch
of day 201 raises; `update()` re-raises the same exception, but the
slice fetched before the exception is not persisted: the cache file is
still absent, against the claim that partial progress is written. -/
theorem c3_exception_persists_nothing :
    env3.fetch 200 = .ok [⟨200, 1, 1⟩] ∧
    (update env3 ⟨"data", none⟩ none).1 = .error "neterr" ∧
    (update env3 ⟨"data", none⟩ none).2.2 = none :=
  ⟨rfl, rfl, rfl⟩

/-! ## Claim C4 (code bug: an empty cache is never populated) -/

/-- An environment whose calendar starts at the base date and whose
fetch always succeeds with a non-empty slice. -/
def env4 : Env :=
  { latest_trade_day := base_date
  , trade_day_between := fun a b => if a ≤ b then [base_date] else []
  , fetch := fun d => .ok [⟨d, 1, 100⟩] }

/-- C4 (failing run): starting with no cache file, `should_update()` is
true, the slice for the base date is fetched successfully, and yet after
`update()` the cache file still does not exist, against the claim that
it is populated from the base date on. -/
theorem c4_empty_cache_not_populated :
    should_update ⟨"data", none⟩ none base_date = true ∧
    env4.fetch base_date = .ok [⟨base_date, 1, 100⟩] ∧
    (update env4 ⟨"data", none⟩ none).2.2 = none :=
  ⟨rfl, rfl, rfl⟩

/-! ## Claim C5 -/

/-- C5: when the cached max trade date already equals the latest trading
day, running `update()` twice leaves the cache file byte-for-byte
unchanged; in particular the second run is a no-op on the file. -/
theorem c5_update_idempotent_on_file (env : Env) (s : StockMarginDetail) (t : Table)
    (_h : maxTD t = some env.latest_trade_day) :
    (update env s (some t)).2.2 = some t ∧
      (update env (update env s (some t)).2.1 (update env s (some t)).2.2).2.2 = some t := by
  refine ⟨update_fs_eq env s (some t), ?_⟩
  rw [update_fs_eq env s (some t)]
  exact update_fs_eq env _ (some t)

/-- Witness for C5 at a concrete cache and calendar. -/
theorem c5_witness :
    maxTD cacheT1 = some 100 ∧
      (update ⟨100, fun _ _ => [], fun _ => .error "x"⟩ ⟨"data", none⟩ (some cacheT1)).2.2
        = some cacheT1 :=
  ⟨by decide,
   (c5_update_idempotent_on_file ⟨100, fun _ _ => [], fun _ => .error "x"⟩
      ⟨"data", none⟩ cacheT1 (by decide)).1⟩

/-! ## Duplicate removal and sortedness of the merge -/

/-- Membership in `dropDupAux`: every emitted row comes from the input
and was not seen before. -/
lemma mem_dropDupAux {r : Row} :
    ∀ {l seen : Table}, r ∈ dropDupAux seen l → r ∈ l ∧ r ∉ seen := by
  intro l
  induction l with
  | nil => intro seen h; simp [dropDupAux] at h
  | cons a rest ih =>
      intro seen h
      unfold dropDupAux at h
      by_cases ha : a ∈ seen
      · simp only [ha, if_true] at h
        rcases ih h with ⟨h1, h2⟩
        exact ⟨List.mem_cons_of_mem a h1, h2⟩
      · simp only [ha, if_false] at h
        rcases List.mem_cons.mp h with h1 | h1
        · subst h1; exact ⟨List.mem_cons_self r rest, ha⟩
        · rcases ih h1 with ⟨h2, h3⟩
          refine ⟨List.mem_cons_of_mem a h2, fun hr => h3 (List.mem_cons_of_mem a hr)⟩

/-- The helper `dropDupAux` emits no row twice. -/
lemma dropDupAux_nodup : ∀ (l seen : Table), (dropDupAux seen l).Nodup := by
  intro l
  induction l with
  | nil => intro seen; simp [dropDupAux]
  | cons a rest ih =>
      intro seen
      unfold dropDupAux
      by_cases ha : a ∈ seen
      · simp only [ha, if_true]; exact ih seen
      · simp only [ha, if_false]
        refine List.nodup_cons.mpr ⟨fun hmem => ?_, ih (a :: seen)⟩
        exact (mem_dropDupAux hmem).2 (List.mem_cons_self a seen)

/-- Thus `drop_duplicates()` returns a table with no two identical rows. -/
lemma dropDuplicates_nodup (t : Table) : (dropDuplicates t).Nodup :=
  dropDupAux_nodup t []

/-- Sorting permutes the table, so it preserves `Nodup`. -/
lemma sortByTradeDate_nodup {t : Table} (h : t.Nodup) : (sortByTradeDate t).Nodup :=
  ((List.perm_insertionSort rowLE t).nodup_iff).mpr h

/-- The merge result is sorted ascending by trade date. -/
lemma mergeTables_sorted (dfs : List Table) : List.Sorted rowLE (mergeTables dfs) :=
  List.sorted_insertionSort rowLE (dropDuplicates dfs.flatten)

/-! ## Claim C6 (corrected: deduplication is by whole row, not by
(date, entity) pair) -/

/-- C6 counterexample: two fetched slices hold rows with the same trade
date and the same entity but a different value field; the merge of
`update()` keeps both, so the persisted table has a duplicate
(date, entity) pair. -/
theorem c6_counterexample_dup_date_entity :
    (updateFinally ⟨"data", none⟩ none [[⟨100, 7, 1⟩], [⟨100, 7, 2⟩]] none).2.2 =
        some [⟨100, 7, 1⟩, ⟨100, 7, 2⟩] ∧
      ¬ (([⟨100, 7, 1⟩, ⟨100, 7, 2⟩] : Table).map fun r => (r.trade_date, r.entity)).Nodup :=
  ⟨by decide, by decide⟩

/-- C6 amended: every merge of `update()` yields a table sorted
ascending by trade date with no two fully identical rows (rows equal in
every column); rows agreeing only on (date, entity) may both remain. -/
theorem c6_merge_sorted_and_row_nodup (dfs : List Table) :
    List.Sorted rowLE (mergeTables dfs) ∧ (mergeTables dfs).Nodup :=
  ⟨mergeTables_sorted dfs,
   sortByTradeDate_nodup (dropDuplicates_nodup dfs.flatten)⟩

/-! ## The maximum trade date -/

lemma maxTD_eq_none_iff (t : Table) : maxTD t = none ↔ t = [] := by
  cases t with
  | nil => simp [maxTD]
  | cons r rest =>
      simp only [maxTD, List.foldr_cons]
      cases rest.foldr (fun r acc => match acc with
        | none => some r.trade_date
        | some m => some (max r.trade_date m)) none with
      | none => simp
      | some m => simp

/-- The maximum trade date is attained by some row and bounds every row. -/
lemma maxTD_eq_some (t : Table) (m : Nat) (h : maxTD t = some m) :
    (∃ r ∈ t, r.trade_date = m) ∧ ∀ x ∈ t, x.trade_date ≤ m := by
  induction t generalizing m with
  | nil => simp [maxTD] at h
  | cons r rest ih =>
      rw [show maxTD (r :: rest) = (match maxTD rest with
        | none => some r.trade_date
        | some m' => some (max r.trade_date m')) from rfl] at h
      cases hm : maxTD rest with
      | none =>
          rw [hm] at h
          have ht : rest = [] := (maxTD_eq_none_iff rest).mp hm
          subst ht
          simp at h
          subst h
          exact ⟨⟨r, List.mem_singleton_self r, rfl⟩, by simp⟩
      | some m' =>
          rw [hm] at h
          simp only [Option.some.injEq] at h
          rcases ih m' hm with ⟨⟨r', hr', hr'td⟩, hub⟩
          rcases Nat.le_total r.trade_date m' with hle | hle
          · rw [Nat.max_eq_right hle] at h
            subst h
            refine ⟨⟨r', List.mem_cons_of_mem r hr', hr'td⟩, ?_⟩
            intro x hx
            rcases List.mem_cons.mp hx with hx | hx
            · subst hx; exact hle
            · exact hub x hx
          · rw [Nat.max_eq_left hle] at h
            subst h
            refine ⟨⟨r, List.mem_cons_self r rest, rfl⟩, ?_⟩
            intro x hx
            rcases List.mem_cons.mp hx with hx | hx
            · subst hx; exact Nat.le_refl _
            · exact Nat.le_trans (hub x hx) hle

/-- Conversely, an attained upper bound of the trade dates is the
maximum. -/
lemma maxTD_of_attained_ub (t : Table) (m : Nat)
    (hmem : ∃ r ∈ t, r.trade_date = m) (hub : ∀ x ∈ t, x.trade_date ≤ m) :
    maxTD t = some m := by
  rcases hmem with ⟨r, hr, hrm⟩
  cases hmax : maxTD t with
  | none =>
      rw [maxTD_eq_none_iff] at hmax
      subst hmax
      simp at hr
  | some m' =>
      rcases maxTD_eq_some t m' hmax with ⟨⟨r', hr', hr'm⟩, hub'⟩
      have h1 : m ≤ m' := hrm ▸ hub' r hr
      have h2 : m' ≤ m := hr'm ▸ hub r' hr'
      rw [Nat.le_antisymm h2 h1]

/-- The maximum trade date is invariant under permutation, in particular
under `sort_values`. -/
lemma maxTD_perm {t t' : Table} (p : List.Perm t t') : maxTD t = maxTD t' := by
  cases hmax : maxTD t with
  | none =>
      rw [maxTD_eq_none_iff] at hmax
      subst hmax
      rw [p.symm.eq_nil]
      rfl
  | some m =>
      rcases maxTD_eq_some t m hmax with ⟨⟨r, hr, hrm⟩, hub⟩
      exact (maxTD_of_attained_ub t' m ⟨r, p.mem_iff.mp hr, hrm⟩
        (fun x hx => hub x (p.mem_iff.mpr hx))).symm

lemma maxTD_sortByTradeDate (t : Table) : maxTD (sortByTradeDate t) = maxTD t :=
  maxTD_perm (List.perm_insertionSort rowLE t)

/-- In a table sorted by trade date, the last row bounds every row. -/
lemma sorted_le_getLast :
    ∀ (l : Table) (hne : l ≠ []), List.Sorted rowLE l →
      ∀ r ∈ l, r.trade_date ≤ (l.getLast hne).trade_date := by
  intro l
  induction l with
  | nil => intro hne; exact absurd rfl hne
  | cons a rest ih =>
      intro hne hs r hr
      cases rest with
      | nil =>
          rcases List.mem_singleton.mp hr with h
          subst h
          exact Nat.le_refl _
      | cons b rest' =>
          rw [List.getLast_cons (by simp)]
          rcases List.mem_cons.mp hr with h | h
          · subst h
            have hrel : rowLE r ((b :: rest').getLast (by simp)) :=
              List.rel_of_sorted_cons hs _ (List.getLast_mem (by simp))
            exact hrel
          · exact ih (by simp) hs.of_cons r h

/-- The last row of the sorted table attains the maximum trade date. -/
lemma maxTD_eq_getLast_sorted (l : Table) (hne : l ≠ []) (hs : List.Sorted rowLE l) :
    maxTD l = some ((l.getLast hne).trade_date) :=
  maxTD_of_attained_ub l _ ⟨l.getLast hne, List.getLast_mem hne, rfl⟩
    (sorted_le_getLast l hne hs)

/-! ## Claim C7 -/

/-- Computation of `start_date()` on a non-empty cache file. -/
lemma start_date_some (dir : String) (c : Table) (hl : sortByTradeDate c ≠ []) :
    start_date ⟨dir, none⟩ (some c) = ((sortByTradeDate c).getLast hl).trade_date + 1 := by
  unfold start_date prepare load
  simp [List.getLast?_eq_getLast _ hl]

/-- C7: `start_date()` is the fixed base date when the cache is empty
(no file, or a file holding an empty table), and the day after the
cached max trade date otherwise. -/
theorem c7_start_date (dir : String) (c : Table) :
    start_date ⟨dir, none⟩ none = base_date ∧
    (c = [] → start_date ⟨dir, none⟩ (some c) = base_date) ∧
    (c ≠ [] → ∃ r ∈ c, (∀ x ∈ c, x.trade_date ≤ r.trade_date) ∧
        start_date ⟨dir, none⟩ (some c) = r.trade_date + 1) := by
  refine ⟨rfl, ?_, ?_⟩
  · intro h; subst h; rfl
  · intro hne
    have p := List.perm_insertionSort rowLE c
    have hl : sortByTradeDate c ≠ [] := by
      intro h
      rw [show List.insertionSort rowLE c = sortByTradeDate c from rfl, h] at p
      exact hne p.symm.eq_nil
    refine ⟨(sortByTradeDate c).getLast hl, p.mem_iff.mp (List.getLast_mem hl), ?_,
      start_date_some dir c hl⟩
    intro x hx
    exact sorted_le_getLast (sortByTradeDate c) hl
      (List.sorted_insertionSort rowLE c) x (p.mem_iff.mpr hx)

/-- Witness for C7: on a two-row cache with max trade date 5, the next
update starts at day 6. -/
theorem c7_witness :
    start_date ⟨"data", none⟩ (some [⟨3, 1, 1⟩, ⟨5, 1, 2⟩]) = 6 := by
  rcases (c7_start_date "data" [⟨3, 1, 1⟩, ⟨5, 1, 2⟩]).2.2 (by decide)
    with ⟨r, hr, hub, heq⟩
  have h5 := hub ⟨5, 1, 2⟩ (by simp)
  simp only [List.mem_cons, List.not_mem_nil, or_false] at hr
  rcases hr with rfl | rfl
  · exact absurd h5 (by decide)
  · exact heq

/-! ## Claim C8 -/

/-- C8: for every cache state whose file, when present, is non-empty,
`should_update()` is true iff the cache file does not exist or the
cached max trade date is strictly smaller than the latest trading day. -/
theorem c8_should_update (dir : String) (fs : Option Table) (latest : Nat)
    (h : fs ≠ some ([] : Table)) :
    (should_update ⟨dir, none⟩ fs latest = true ↔
      fs = none ∨ ∃ t m, fs = some t ∧ maxTD t = some m ∧ m < latest) := by
  cases fs with
  | none => simp [should_update]
  | some t =>
      have ht : t ≠ [] := fun he => h (by rw [he])
      have hmax : ∃ m, maxTD t = some m := by
        cases hm : maxTD t with
        | none => exact absurd ((maxTD_eq_none_iff t).mp hm) ht
        | some m => exact ⟨m, rfl⟩
      rcases hmax with ⟨m, hm⟩
      have hcomp : should_update ⟨dir, none⟩ (some t) latest = decide (m < latest) := by
        unfold should_update need_update_by_trade_date prepare load
        simp [maxTD_sortByTradeDate, hm]
      rw [hcomp]
      constructor
      · intro hd
        exact Or.inr ⟨t, m, rfl, hm, of_decide_eq_true hd⟩
      · rintro (hfs | ⟨t', m', heq, hm', hlt⟩)
        · exact absurd hfs (by simp)
        · injection heq with heq
          subst heq
          rw [hm] at hm'
          injection hm' with hm'
          subst hm'
          exact decide_eq_true hlt

/-- Witness for C8: a cache with max trade date 100 needs updating when
the latest trading day is 101. -/
theorem c8_witness :
    should_update ⟨"data", none⟩ (some cacheT1) 101 = true :=
  (c8_should_update "data" (some cacheT1) 101 (by decide)).mpr
    (Or.inr ⟨cacheT1, 100, rfl, by decide, by decide⟩)

/-! ## Claim C9 -/

/-- C9: `load()` on an existing cache file returns its rows sorted
ascending by trade date (a permutation of the stored rows, with
`trade_date` parsed as a date), on a missing file an empty table, and in
both cases `self.dataframe` is set to the returned table. -/
theorem c9_load (dir : String) (d : Option Table) (c : Table) :
    (load ⟨dir, d⟩ (some c)).1 = sortByTradeDate c ∧
    List.Sorted rowLE (load ⟨dir, d⟩ (some c)).1 ∧
    List.Perm (load ⟨dir, d⟩ (some c)).1 c ∧
    (load ⟨dir, d⟩ (some c)).2.dataframe = some ((load ⟨dir, d⟩ (some c)).1) ∧
    (load ⟨dir, d⟩ none).1 = [] ∧
    (load ⟨dir, d⟩ none).2.dataframe = some ((load ⟨dir, d⟩ none).1) :=
  ⟨rfl, List.sorted_insertionSort rowLE c, List.perm_insertionSort rowLE c,
   rfl, rfl, rfl⟩

/-! ## Claim C10 -/

/-- The join `os.path.join` inserts a single separator when the second component
is relative and the first is non-empty without a trailing slash. -/
lemma osPathJoin_of_ne (a b : String) (hb : b.data.head? ≠ some '/')
    (ha1 : a ≠ "") (ha2 : a.data.getLast? ≠ some '/') :
    osPathJoin a b = a ++ "/" ++ b := by
  unfold osPathJoin
  rw [if_neg hb, if_neg (not_or.mpr ⟨ha1, ha2⟩)]

/-- C10: for every `data_dir` that is non-empty and has no trailing
slash, the cache file path is exactly
`<data_dir>/market/margin_trading_detail.csv`. -/
theorem c10_file_path (dir : String) (h1 : dir ≠ "") (h2 : dir.data.getLast? ≠ some '/') :
    file_path ⟨dir, none⟩ = dir ++ "/market/margin_trading_detail.csv" := by
  unfold file_path
  rw [osPathJoin_of_ne dir "market" (by decide) h1 h2]
  have ha' : dir ++ "/" ++ "market" ≠ "" := by
    intro h
    have hdata := congrArg String.data h
    simp [String.data_append] at hdata
  have hlast : (dir ++ "/" ++ "market").data.getLast? ≠ some '/' := by
    simp [String.data_append]
  rw [osPathJoin_of_ne _ _ (by decide) ha' hlast]
  apply String.ext
  simp only [String.data_append, List.append_assoc]
  exact congrArg (fun l => dir.data ++ l) rfl

/-- Witness for C10 at a concrete data directory. -/
theorem c10_witness :
    file_path ⟨"data", none⟩ = "data/market/margin_trading_detail.csv" :=
  c10_file_path "data" (by decide) (by decide)

end MarginDetail
